import Mathlib

/-!
# Verification of the pip-to-poetry migration engine (`migrate.py`)

A shallow embedding of the metadata-extraction and dependency-translation
engine of `migrate.py`.  Python strings are modelled as `List Char`,
Python dicts as insertion-ordered association lists, and raised
exceptions as `Except` error values.  All definitions are structurally
recursive, so every function evaluates by kernel reduction on concrete
inputs.
-/

set_option autoImplicit false

namespace Migrate

/-! ## Python string primitives -/

/-- Python `pat in s` (substring containment), scanning left to right. -/
def pyContainsSub (s pat : List Char) : Bool :=
  match s with
  | [] => pat.isEmpty
  | _ :: rest => pat.isPrefixOf s || pyContainsSub rest pat

/-- Worker for Python `str.replace`.  `skip > 0` means the scanner is still
inside a previously matched occurrence and must consume `skip` characters
without looking for a new match; this keeps the recursion structural while
giving the exact non-overlapping left-to-right semantics of `str.replace`
for a non-empty pattern (the source never replaces an empty pattern). -/
def pyReplaceAux (old new : List Char) (skip : Nat) : List Char → List Char
  | [] => []
  | c :: rest =>
    match skip with
    | k + 1 => pyReplaceAux old new k rest
    | 0 =>
      if old.isPrefixOf (c :: rest) then
        new ++ pyReplaceAux old new (old.length - 1) rest
      else
        c :: pyReplaceAux old new 0 rest

/-- Python `s.replace(old, new)` for a non-empty `old`. -/
def pyReplace (s old new : List Char) : List Char :=
  pyReplaceAux old new 0 s

/-- Python `str.strip()` (leading/trailing whitespace removed). -/
def pyStrip (s : List Char) : List Char :=
  ((s.dropWhile Char.isWhitespace).reverse.dropWhile Char.isWhitespace).reverse

/-! ## Insertion-ordered dictionaries

Python `dict` preserves the position of the first insertion of a key and
overwrites its value in place on re-insertion; lookup is by key equality. -/

/-- Assignment `d[k] = v` on an insertion-ordered association list. -/
def dictInsert {K V : Type} [DecidableEq K] (m : List (K × V)) (k : K) (v : V) :
    List (K × V) :=
  if (m.map Prod.fst).contains k then
    m.map (fun p => if p.1 = k then (k, v) else p)
  else
    m ++ [(k, v)]

/-- Lookup `d[k]` / `d.get(k)` on an association list. -/
def dictLookup {K V : Type} [DecidableEq K] (m : List (K × V)) (k : K) : Option V :=
  match m with
  | [] => none
  | p :: rest => if p.1 = k then some p.2 else dictLookup rest k

/-- Membership `k in d` on an association list. -/
def dictContains {K V : Type} [DecidableEq K] (m : List (K × V)) (k : K) : Bool :=
  m.any (fun p => decide (p.1 = k))

/-! ## The requirement record

The shape of the `requirements.requirement.Requirement` records consumed by
`migrate.py`: an optional package name, the editable flag, the stored path
text, the declared extras and the `(operator, version)` constraint pairs. -/

/-- A parsed requirement record, as consumed by `migrate.py`. -/
structure Req where
  name : Option (List Char)
  editable : Bool
  path : List Char
  extras : List (List Char)
  specs : List (List Char × List Char)
deriving DecidableEq

/-- The only exception `add_requirement_section` raises: the
`NotImplementedError` of lines 93 and 97 of `migrate.py`, which the
specification's error taxonomy calls `UnsupportedSpecError`. -/
inductive TranslateError where
  | unsupportedSpec
deriving DecidableEq

/-- The two value shapes a dependency entry can take in the manifest:
a bare scalar constraint string or a structured table. -/
structure SpecTable where
  path : Option (List Char) := none
  develop : Option Bool := none
  version : Option (List Char) := none
  extras : Option (List (List Char)) := none
deriving DecidableEq

/-- A dependency-entry value: Python `str` or `dict` in the source. -/
inductive SpecValue where
  | scalar (s : List Char)
  | table (t : SpecTable)
deriving DecidableEq

/-- The `["dev"]` extras marker added for editable dev-section entries. -/
def devMarker : List (List Char) := ["dev".toList]

/-- The body of the `for requirement in requirements` loop of
`add_requirement_section` (`migrate.py` lines 80-104): computes the
`specs` value written for one requirement, or raises. -/
def translateRequirement (requirement : Req) (dev : Bool) :
    Except TranslateError SpecValue :=
  let base : Except TranslateError SpecValue :=
    if requirement.editable then
      let table : SpecTable :=
        { path := some (pyStrip (requirement.path.drop 5)), develop := some true }
      .ok (.table (if dev then { table with extras := some devMarker } else table))
    else if requirement.specs.length = 1 then
      .ok (.scalar ('^' :: (requirement.specs.headD ([], [])).2))
    else if requirement.specs.length = 0 then
      .error .unsupportedSpec
    else
      .error .unsupportedSpec
  match base with
  | .error e => .error e
  | .ok specs =>
    if requirement.extras.isEmpty then
      .ok specs
    else
      match specs with
      | .scalar s => .ok (.table { version := some s, extras := some requirement.extras })
      | .table t => .ok (.table { t with extras := some requirement.extras })

/-- The function `add_requirement_section` (`migrate.py` lines 69-109), restricted to the
dependencies dict it mutates: translates each requirement in order and
writes `dependencies[requirement.name] = specs`; a raise aborts the run. -/
def add_requirement_section (dependencies : List (Option (List Char) × SpecValue))
    (requirements : List Req) (dev : Bool) :
    Except TranslateError (List (Option (List Char) × SpecValue)) :=
  match requirements with
  | [] => .ok dependencies
  | requirement :: rest =>
    match translateRequirement requirement dev with
    | .error e => .error e
    | .ok specs =>
      add_requirement_section (dictInsert dependencies requirement.name specs) rest dev

/-! ## The dependency-file reconciler (`load_requirements`) -/

/-- The errors `load_requirements` can raise.  `missingNames` is the
`ValueError` of line 159 whose message lists every offending entry
(the specification's `MissingNameError`); `attrError` is the
`AttributeError` raised when `requirement.name.replace` is evaluated on a
`None` name while building a map (line 166 or 170); `noneKeyCheck` is the
`ValueError` of line 175; `reconcileKeyError` is the `KeyError` raised by
`requirements_txt_map[requirement_in]` (line 178), the specification's
`ReconciliationError`. -/
inductive LoadError where
  | missingNames (offenders : List Req)
  | attrError
  | noneKeyCheck
  | reconcileKeyError (key : Option (List Char))
deriving DecidableEq

/-- The canonical self-listing of the legacy build tool. -/
def pipToolsName : List Char := "pip-tools".toList

/-- Worker for the dict comprehensions of lines 165-172: inserts each
requirement under the key `requirement.name.replace("_", "-")`, raising an
`AttributeError` if a name is `None`. -/
def buildReqMapAux (reqs : List Req) (acc : List (Option (List Char) × Req)) :
    Except LoadError (List (Option (List Char) × Req)) :=
  match reqs with
  | [] => .ok acc
  | r :: rest =>
    match r.name with
    | none => .error .attrError
    | some n => buildReqMapAux rest (dictInsert acc (some (pyReplace n "_".toList "-".toList)) r)

/-- The dict comprehension `{r.name.replace("_", "-"): r for r in reqs}`. -/
def buildReqMap (reqs : List Req) : Except LoadError (List (Option (List Char) × Req)) :=
  buildReqMapAux reqs []

/-- The generator expression of lines 177-181, consumed eagerly: iterate the
wanted map's keys in insertion order, skip the `pip-tools` self-entry and
yield `requirements_txt_map[key]`; a missing key raises a `KeyError`. -/
def reconcileAux (txtMap : List (Option (List Char) × Req)) :
    List (Option (List Char) × Req) → Except LoadError (List Req)
  | [] => .ok []
  | (k, _) :: rest =>
    if k = some pipToolsName then
      reconcileAux txtMap rest
    else
      match dictLookup txtMap k with
      | none => .error (.reconcileKeyError k)
      | some r =>
        match reconcileAux txtMap rest with
        | .error e => .error e
        | .ok l => .ok (r :: l)

/-- The function `load_requirements` (`migrate.py` lines 143-181), taking the two parsed
requirement lists as input (file reading, hash-stripping and
backslash-removal happen before parsing and are not claim-relevant).  The
returned generator is modelled eagerly, so the `KeyError` a consumer would
hit surfaces as an error of the whole call. -/
def load_requirements (requirements_in requirements_txt : List Req) :
    Except LoadError (List Req) :=
  let missing_names := requirements_in.filter (fun r => r.name.isNone)
  if missing_names ≠ [] then
    .error (.missingNames missing_names)
  else
    match buildReqMap requirements_in with
    | .error e => .error e
    | .ok requirements_in_map =>
      match buildReqMap requirements_txt with
      | .error e => .error e
      | .ok requirements_txt_map =>
        if dictContains requirements_in_map none || dictContains requirements_txt_map none then
          .error .noneKeyCheck
        else
          reconcileAux requirements_txt_map requirements_in_map

/-- Spec-side description of the reconciled sequence, written from the
specification's words for the refinement claim C8: look every key up in the
resolved map, in the order given, all lookups succeeding. -/
def orderedLookup (txtMap : List (Option (List Char) × Req)) :
    List (Option (List Char)) → Option (List Req)
  | [] => some []
  | k :: ks =>
    match dictLookup txtMap k, orderedLookup txtMap ks with
    | some r, some l => some (r :: l)
    | _, _ => none

/-! ## The private-registry merge (`add_private_repo`) -/

/-- A `{name, url}` registry-source entry. -/
structure Source where
  name : List Char
  url : List Char
deriving DecidableEq

/-- The `ValueError` raised by unpacking `private_repo.split(":", maxsplit=1)`
into two variables when the argument contains no colon. -/
inductive RepoError where
  | unpackError
deriving DecidableEq

/-- Python `s.split(":", maxsplit=1)`. -/
def pySplitColon1 (s : List Char) : List (List Char) :=
  if s.contains ':' then
    [s.takeWhile (fun c => c ≠ ':'), (s.dropWhile (fun c => c ≠ ':')).drop 1]
  else
    [s]

/-- The `for source in sources` loop of `add_private_repo` (lines 214-220):
update the first entry with a matching name in place and stop, otherwise
append `{name, url}` at the end. -/
def updateSources (sources : List Source) (name url : List Char) : List Source :=
  match sources with
  | [] => [⟨name, url⟩]
  | s :: rest =>
    if s.name = name then
      ⟨s.name, url⟩ :: rest
    else
      s :: updateSources rest name url

/-- The function `add_private_repo` (`migrate.py` lines 207-222), restricted to the
ordered registry-source list it mutates. -/
def add_private_repo (sources : List Source) (private_repo : List Char) :
    Except RepoError (List Source) :=
  match pySplitColon1 private_repo with
  | [name, url] => .ok (updateSources sources name url)
  | _ => .error .unpackError

/-- The url of the first entry with the given name, if any. -/
def sourceLookup (sources : List Source) (name : List Char) : Option (List Char) :=
  match sources with
  | [] => none
  | s :: rest => if s.name = name then some s.url else sourceLookup rest name

/-! ## The `python_requires` extractor (`get_python_version`) -/

/-- The literal part of the regex
`python_requires="(?P<python_requires>.*)"`. -/
def pqLit : List Char := "python_requires=\"".toList

/-- The greedy capture of `(.*)"`: everything on the current line strictly
before its last `"`, or `none` when the line has no `"` (in which case the
regex does not match at this position). -/
def beforeLastQuote (line : List Char) : Option (List Char) :=
  if line.contains '"' then
    some (((line.reverse.dropWhile (fun c => c ≠ '"')).drop 1).reverse)
  else
    none

/-- Worker for `re.findall` of the pattern `python_requires="(.*)"`:
left-to-right, non-overlapping, `.` not matching a newline, `.*` greedy.
`skip` counts characters still belonging to the previous match, keeping the
recursion structural. -/
def findallAux (skip : Nat) : List Char → List (List Char)
  | [] => []
  | c :: rest =>
    match skip with
    | k + 1 => findallAux k rest
    | 0 =>
      if pqLit.isPrefixOf (c :: rest) then
        match beforeLastQuote ((( c :: rest).drop pqLit.length).takeWhile (fun ch => ch ≠ '\n')) with
        | some cap => cap :: findallAux (pqLit.length + cap.length) rest
        | none => findallAux 0 rest
      else
        findallAux 0 rest

/-- The call `python_requires_re.findall(setup)`. -/
def pythonRequiresFindall (setup : List Char) : List (List Char) :=
  findallAux 0 setup

/-- The function `get_python_version` (`migrate.py` lines 112-118). -/
def get_python_version (setup : List Char) : List Char :=
  match pythonRequiresFindall setup with
  | [] => "^3.9".toList
  | python_requires0 :: _ => pyReplace python_requires0 ">=".toList "^".toList

/-! ## Helper lemmas -/

/-- Python `str.replace` is the identity when the pattern does not occur. -/
theorem pyReplaceAux_id (old new : List Char) :
    ∀ s : List Char, pyContainsSub s old = false → pyReplaceAux old new 0 s = s := by
  intro s
  induction s with
  | nil => intro _; rfl
  | cons c rest ih =>
    intro h
    rw [pyContainsSub] at h
    simp only [Bool.or_eq_false_iff] at h
    simp [pyReplaceAux, h.1, ih h.2]

/-- Every member of `dictInsert m k v` is a member of `m` or has key `k`. -/
theorem dictInsert_mem {K V : Type} [DecidableEq K] (m : List (K × V)) (k : K) (v : V)
    (p : K × V) (hp : p ∈ dictInsert m k v) : p ∈ m ∨ p.1 = k := by
  unfold dictInsert at hp
  split at hp
  · obtain ⟨q, hq, hpe⟩ := List.mem_map.mp hp
    by_cases hqk : q.1 = k
    · right
      rw [if_pos hqk] at hpe
      rw [← hpe]
    · left
      rw [if_neg hqk] at hpe
      rw [← hpe]
      exact hq
  · rcases List.mem_append.mp hp with h | h
    · left; exact h
    · right
      rw [List.mem_singleton.mp h]

/-- Map building only ever installs `some`-keys. -/
theorem buildReqMapAux_keys (reqs : List Req) :
    ∀ acc m, buildReqMapAux reqs acc = .ok m →
      (∀ p ∈ acc, (p : Option (List Char) × Req).1 ≠ none) →
      ∀ p ∈ m, p.1 ≠ none := by
  induction reqs with
  | nil =>
    intro acc m h hacc
    rw [buildReqMapAux] at h
    cases h
    exact hacc
  | cons r rest ih =>
    intro acc m h hacc
    rw [buildReqMapAux] at h
    cases hn : r.name with
    | none => rw [hn] at h; cases h
    | some n =>
      rw [hn] at h
      refine ih _ m h ?_
      intro p hp
      rcases dictInsert_mem _ _ _ p hp with h1 | h1
      · exact hacc p h1
      · rw [h1]; simp

/-- A successfully built map never contains the key `None`. -/
theorem buildReqMap_contains_none (reqs : List Req)
    (m : List (Option (List Char) × Req)) (h : buildReqMap reqs = .ok m) :
    dictContains m none = false := by
  have hk := buildReqMapAux_keys reqs [] m h (by intro p hp; cases hp)
  rw [dictContains, List.any_eq_false]
  intro p hp
  simpa using hk p hp

/-- The only error map building can raise is the attribute error. -/
theorem buildReqMapAux_error (reqs : List Req) :
    ∀ acc e, buildReqMapAux reqs acc = .error e → e = .attrError := by
  induction reqs with
  | nil => intro acc e h; rw [buildReqMapAux] at h; cases h
  | cons r rest ih =>
    intro acc e h
    rw [buildReqMapAux] at h
    cases hn : r.name with
    | none => rw [hn] at h; cases h; rfl
    | some n => rw [hn] at h; exact ih _ e h

/-- Map building succeeds when every entry has a name. -/
theorem buildReqMapAux_ok_of_named (reqs : List Req) (h : ∀ r ∈ reqs, r.name ≠ none) :
    ∀ acc, ∃ m, buildReqMapAux reqs acc = .ok m := by
  induction reqs with
  | nil => intro acc; exact ⟨acc, rfl⟩
  | cons r rest ih =>
    intro acc
    cases hn : r.name with
    | none => exact absurd hn (h r (List.mem_cons_self r rest))
    | some n =>
      obtain ⟨m, hm⟩ := ih (fun q hq => h q (List.mem_cons_of_mem r hq)) _
      exact ⟨m, by rw [buildReqMapAux, hn]; exact hm⟩

/-- Map building raises the attribute error when some entry is nameless. -/
theorem buildReqMapAux_nameless (reqs : List Req) (r : Req) (hr : r ∈ reqs)
    (hn : r.name = none) : ∀ acc, buildReqMapAux reqs acc = .error .attrError := by
  induction reqs with
  | nil => cases hr
  | cons a rest ih =>
    intro acc
    rw [buildReqMapAux]
    cases ha : a.name with
    | none => rfl
    | some n =>
      rcases List.mem_cons.mp hr with h1 | h1
      · rw [h1] at hn; rw [hn] at ha; cases ha
      · exact ih h1 _

/-- Every error the reconciling generator raises is a key error. -/
theorem reconcileAux_error (txtMap : List (Option (List Char) × Req)) :
    ∀ m e, reconcileAux txtMap m = .error e → ∃ k, e = .reconcileKeyError k := by
  intro m
  induction m with
  | nil => intro e h; rw [reconcileAux] at h; cases h
  | cons p rest ih =>
    intro e h
    obtain ⟨k, r0⟩ := p
    rw [reconcileAux] at h
    by_cases hk : k = some pipToolsName
    · rw [if_pos hk] at h; exact ih e h
    · rw [if_neg hk] at h
      cases hl : dictLookup txtMap k with
      | none => rw [hl] at h; cases h; exact ⟨k, rfl⟩
      | some r =>
        rw [hl] at h
        cases hrec : reconcileAux txtMap rest with
        | error e2 => rw [hrec] at h; cases h; exact ih _ hrec
        | ok l => rw [hrec] at h; cases h

/-- On success, the generator yields exactly the in-order lookups of the
non-`pip-tools` wanted keys in the resolved map. -/
theorem reconcileAux_ok (txtMap : List (Option (List Char) × Req)) :
    ∀ m l, reconcileAux txtMap m = .ok l →
      orderedLookup txtMap
        ((m.map Prod.fst).filter (fun k => decide (k ≠ some pipToolsName))) = some l := by
  intro m
  induction m with
  | nil =>
    intro l h
    rw [reconcileAux] at h
    cases h
    rfl
  | cons p rest ih =>
    intro l h
    obtain ⟨k, r0⟩ := p
    rw [reconcileAux] at h
    by_cases hk : k = some pipToolsName
    · rw [if_pos hk] at h
      simpa [hk] using ih l h
    · rw [if_neg hk] at h
      cases hl : dictLookup txtMap k with
      | none => rw [hl] at h; cases h
      | some r =>
        rw [hl] at h
        cases hrec : reconcileAux txtMap rest with
        | error e2 => rw [hrec] at h; cases h
        | ok l0 =>
          rw [hrec] at h
          cases h
          simp only [List.map_cons, List.filter_cons, decide_eq_true_eq]
          rw [if_pos (by simpa using hk)]
          rw [orderedLookup, hl, ih l0 hrec]

/-- When some non-`pip-tools` wanted key has no resolved counterpart, the
generator raises a key error for such a key. -/
theorem reconcileAux_error_of_missing (txtMap : List (Option (List Char) × Req)) :
    ∀ m (k : Option (List Char)), k ∈ m.map Prod.fst → k ≠ some pipToolsName →
      dictLookup txtMap k = none →
      ∃ k2, reconcileAux txtMap m = .error (.reconcileKeyError k2) ∧
        k2 ∈ m.map Prod.fst ∧ k2 ≠ some pipToolsName ∧ dictLookup txtMap k2 = none := by
  intro m
  induction m with
  | nil => intro k hk _ _; cases hk
  | cons p rest ih =>
    intro k hk hne hl
    obtain ⟨k0, r0⟩ := p
    by_cases hk0 : k0 = some pipToolsName
    · have hkr : k ∈ rest.map Prod.fst := by
        rcases List.mem_cons.mp hk with h1 | h1
        · exact absurd (h1.trans hk0) hne
        · exact h1
      obtain ⟨k2, h2, h3, h4, h5⟩ := ih k hkr hne hl
      refine ⟨k2, ?_, List.mem_cons_of_mem _ h3, h4, h5⟩
      rw [reconcileAux, if_pos hk0]
      exact h2
    · cases hl0 : dictLookup txtMap k0 with
      | none =>
        refine ⟨k0, ?_, List.mem_cons_self _ _, hk0, hl0⟩
        rw [reconcileAux, if_neg hk0, hl0]
      | some r =>
        have hkr : k ∈ rest.map Prod.fst := by
          rcases List.mem_cons.mp hk with h1 | h1
          · rw [h1] at hl; rw [hl] at hl0; cases hl0
          · exact h1
        obtain ⟨k2, h2, h3, h4, h5⟩ := ih k hkr hne hl
        refine ⟨k2, ?_, List.mem_cons_of_mem _ h3, h4, h5⟩
        rw [reconcileAux, if_neg hk0, hl0, h2]

/-- Unfolding of `load_requirements` past all its passing checks. -/
theorem load_requirements_eq (reqs_in reqs_txt : List Req)
    (m_in m_txt : List (Option (List Char) × Req))
    (hmiss : reqs_in.filter (fun r => r.name.isNone) = [])
    (hin : buildReqMap reqs_in = .ok m_in)
    (htxt : buildReqMap reqs_txt = .ok m_txt) :
    load_requirements reqs_in reqs_txt = reconcileAux m_txt m_in := by
  rw [load_requirements]
  simp only [hmiss, hin, htxt, ne_eq, not_true_eq_false, if_false,
    buildReqMap_contains_none reqs_in m_in hin,
    buildReqMap_contains_none reqs_txt m_txt htxt, Bool.or_self, Bool.false_eq_true]

/-- Updating an existing name leaves the name column of the source list
unchanged (hence also its length and order). -/
theorem updateSources_map_name (sources : List Source) (n u : List Char)
    (h : ∃ s ∈ sources, s.name = n) :
    (updateSources sources n u).map Source.name = sources.map Source.name := by
  induction sources with
  | nil => obtain ⟨s, hs, _⟩ := h; cases hs
  | cons s rest ih =>
    rw [updateSources]
    by_cases hs : s.name = n
    · rw [if_pos hs]; simp
    · rw [if_neg hs]
      obtain ⟨t, ht, htn⟩ := h
      rcases List.mem_cons.mp ht with h1 | h1
      · rw [h1] at htn; exact absurd htn hs
      · simp [ih ⟨t, h1, htn⟩]

/-- Updating an absent name appends the new entry at the end. -/
theorem updateSources_append (sources : List Source) (n u : List Char)
    (h : ∀ s ∈ sources, s.name ≠ n) :
    updateSources sources n u = sources ++ [⟨n, u⟩] := by
  induction sources with
  | nil => rfl
  | cons s rest ih =>
    rw [updateSources, if_neg (h s (List.mem_cons_self s rest))]
    rw [ih (fun t ht => h t (List.mem_cons_of_mem s ht))]
    rfl

/-- After an update-or-append, the first entry with the given name carries
the given url. -/
theorem sourceLookup_updateSources (sources : List Source) (n u : List Char) :
    sourceLookup (updateSources sources n u) n = some u := by
  induction sources with
  | nil => simp [updateSources, sourceLookup]
  | cons s rest ih =>
    rw [updateSources]
    by_cases hs : s.name = n
    · rw [if_pos hs, sourceLookup, if_pos hs]
    · rw [if_neg hs, sourceLookup, if_neg hs]
      exact ih

/-- Taking while "not a colon" over `name ++ ":" ++ url` yields the name. -/
theorem takeWhile_ne_colon (u : List Char) :
    ∀ n : List Char, ':' ∉ n →
      (n ++ ':' :: u).takeWhile (fun c => decide (c ≠ ':')) = n := by
  intro n
  induction n with
  | nil => intro _; simp [List.takeWhile]
  | cons c n' ih =>
    intro hc
    have hcn : c ≠ ':' := fun hcc => hc (hcc ▸ List.mem_cons_self c n')
    simp only [List.cons_append, List.takeWhile_cons, decide_eq_true_eq]
    rw [if_pos hcn, ih (fun hm => hc (List.mem_cons_of_mem c hm))]

/-- Dropping while "not a colon" over `name ++ ":" ++ url` leaves the colon and url. -/
theorem dropWhile_ne_colon (u : List Char) :
    ∀ n : List Char, ':' ∉ n →
      (n ++ ':' :: u).dropWhile (fun c => decide (c ≠ ':')) = ':' :: u := by
  intro n
  induction n with
  | nil => intro _; simp [List.dropWhile]
  | cons c n' ih =>
    intro hc
    have hcn : c ≠ ':' := fun hcc => hc (hcc ▸ List.mem_cons_self c n')
    simp only [List.cons_append, List.dropWhile_cons, decide_eq_true_eq]
    rw [if_pos hcn, ih (fun hm => hc (List.mem_cons_of_mem c hm))]

/-- Splitting `name + ":" + url` once at a colon, when the name is
colon-free. -/
theorem pySplitColon1_mk (n u : List Char) (hc : ':' ∉ n) :
    pySplitColon1 (n ++ ':' :: u) = [n, u] := by
  have hcont : (n ++ ':' :: u).contains ':' = true := by
    simp [List.contains]
  rw [pySplitColon1, if_pos hcont, takeWhile_ne_colon u n hc, dropWhile_ne_colon u n hc]
  rfl

/-- Raising the batch missing-name error: when some wanted-file entry is
nameless, `load_requirements` raises one `ValueError` listing every
nameless entry. -/
theorem load_requirements_missing_names (reqs_in reqs_txt : List Req)
    (h : reqs_in.filter (fun r => r.name.isNone) ≠ []) :
    load_requirements reqs_in reqs_txt
      = .error (.missingNames (reqs_in.filter (fun r => r.name.isNone))) := by
  rw [load_requirements]
  simp only [h, if_true, ne_eq, not_false_eq_true]

/-- A failed wanted-file map build propagates as the whole call's error. -/
theorem load_requirements_in_error (reqs_in reqs_txt : List Req) (e : LoadError)
    (hmiss : reqs_in.filter (fun r => r.name.isNone) = [])
    (h : buildReqMap reqs_in = .error e) :
    load_requirements reqs_in reqs_txt = .error e := by
  rw [load_requirements]
  simp only [hmiss, ne_eq, not_true_eq_false, if_false, h]

/-- A failed resolved-file map build propagates as the whole call's error. -/
theorem load_requirements_txt_error (reqs_in reqs_txt : List Req)
    (m_in : List (Option (List Char) × Req)) (e : LoadError)
    (hmiss : reqs_in.filter (fun r => r.name.isNone) = [])
    (hin : buildReqMap reqs_in = .ok m_in)
    (h : buildReqMap reqs_txt = .error e) :
    load_requirements reqs_in reqs_txt = .error e := by
  rw [load_requirements]
  simp only [hmiss, ne_eq, not_true_eq_false, if_false, hin, h]

/-- Updating a freshly appended entry rewrites its url in place. -/
theorem updateSources_append_update (n u u2 : List Char) :
    ∀ sources : List Source, (∀ s ∈ sources, s.name ≠ n) →
      updateSources (sources ++ [⟨n, u⟩]) n u2 = sources ++ [⟨n, u2⟩] := by
  intro sources
  induction sources with
  | nil => intro _; simp [updateSources]
  | cons s rest ih =>
    intro h
    rw [List.cons_append, updateSources, if_neg (h s (List.mem_cons_self s rest))]
    rw [ih (fun t ht => h t (List.mem_cons_of_mem s ht))]
    rfl

/-- A list with no entry of the given name filters to nothing under the
name test. -/
theorem filter_name_eq_nil (n : List Char) :
    ∀ sources : List Source, (∀ s ∈ sources, s.name ≠ n) →
      sources.filter (fun s => decide (s.name = n)) = [] := by
  intro sources
  induction sources with
  | nil => intro _; rfl
  | cons s rest ih =>
    intro h
    rw [List.filter_cons]
    rw [if_neg (by simpa using h s (List.mem_cons_self s rest))]
    exact ih (fun t ht => h t (List.mem_cons_of_mem s ht))

/-! ## The claims -/

/-- C1 counterexample: the setup text `python_requires="~=3.8"` contains a
`python_requires="..."` literal with an operator other than `>=`; the
extractor recognizes it and returns `~=3.8` verbatim — not the fixed
default `^3.9` the claim asserts. -/
theorem get_python_version_nonge_counterexample :
    pythonRequiresFindall ("python_requires=\"~=3.8\"".toList) = ["~=3.8".toList] ∧
    get_python_version ("python_requires=\"~=3.8\"".toList) = "~=3.8".toList ∧
    "~=3.8".toList ≠ "^3.9".toList :=
  ⟨rfl, rfl, by decide⟩

/-- C1 (amended): whenever the `python_requires="..."` pattern matches, the
first captured constraint is returned with every `>=` rewritten to `^`; in
particular a constraint using an operator other than `>=` is passed through
verbatim, not treated as absent and not replaced by the `^3.9` default. -/
theorem get_python_version_passthrough (setup c : List Char) (rest : List (List Char))
    (h : pythonRequiresFindall setup = c :: rest) :
    get_python_version setup = pyReplace c ">=".toList "^".toList ∧
    (pyContainsSub c (">=".toList) = false → get_python_version setup = c) := by
  constructor
  · rw [get_python_version, h]
  · intro hc
    rw [get_python_version, h]
    exact pyReplaceAux_id ">=".toList "^".toList c hc

/-- C1 witness: the amended behavior evaluated at `python_requires="~=3.8"`. -/
theorem get_python_version_passthrough_witness :
    get_python_version ("python_requires=\"~=3.8\"".toList) = "~=3.8".toList :=
  (get_python_version_passthrough ("python_requires=\"~=3.8\"".toList)
    ("~=3.8".toList) [] rfl).2 rfl

/-- C2 counterexample: an editable non-dev requirement whose stored path is
`./libs/foo` translates to a structured entry with path `s/foo` (the code
unconditionally drops the first five characters), not `libs/foo` as the
claim's example asserts. -/
theorem editable_dot_path_counterexample :
    translateRequirement ⟨some "foo".toList, true, "./libs/foo".toList, [], []⟩ false
      = .ok (.table ⟨some "s/foo".toList, some true, none, none⟩) ∧
    "s/foo".toList ≠ "libs/foo".toList :=
  ⟨rfl, by decide⟩

/-- C2 (amended): for every editable requirement with no declared extras,
translation yields a structured entry with develop = true and path equal to
the stored path with its first five characters (the length of a leading
`file:` installer marker) dropped and whitespace trimmed; no extras key is
present in the non-dev case and the dev case adds extras = `["dev"]`; when
the stored path is `file:` followed by a local path `p`, the resulting path
is `p` trimmed. -/
theorem editable_translation_amended (r : Req) (he : r.editable = true)
    (hx : r.extras = []) :
    translateRequirement r false
      = .ok (.table ⟨some (pyStrip (r.path.drop 5)), some true, none, none⟩) ∧
    translateRequirement r true
      = .ok (.table ⟨some (pyStrip (r.path.drop 5)), some true, none, some devMarker⟩) ∧
    ∀ p : List Char, r.path = "file:".toList ++ p → pyStrip (r.path.drop 5) = pyStrip p := by
  refine ⟨?_, ?_, ?_⟩
  · simp [translateRequirement, he, hx]
  · simp [translateRequirement, he, hx]
  · intro p hp
    rw [hp]
    rfl

/-- C2 witness: an editable entry with stored path `file:libs/foo`
translates to path `libs/foo`, develop = true, no extras key; the same
entry in a dev context adds extras `["dev"]`. -/
theorem editable_translation_amended_witness :
    translateRequirement ⟨some "foo".toList, true, "file:libs/foo".toList, [], []⟩ false
      = .ok (.table ⟨some "libs/foo".toList, some true, none, none⟩) ∧
    translateRequirement ⟨some "foo".toList, true, "file:libs/foo".toList, [], []⟩ true
      = .ok (.table ⟨some "libs/foo".toList, some true, none, some devMarker⟩) :=
  ⟨(editable_translation_amended
      ⟨some "foo".toList, true, "file:libs/foo".toList, [], []⟩ rfl rfl).1,
   (editable_translation_amended
      ⟨some "foo".toList, true, "file:libs/foo".toList, [], []⟩ rfl rfl).2.1⟩

/-- C3 counterexample: a nameless resolved-file entry makes
`load_requirements` fail with the attribute error raised while normalizing
the `None` name, which is not the missing-name (`ValueError`) class used
for nameless wanted-file entries. -/
theorem resolved_nameless_counterexample :
    load_requirements [⟨some "a".toList, false, [], [], [("==".toList, "1".toList)]⟩]
        [⟨none, true, "file:pkgs/x".toList, [], []⟩] = .error .attrError ∧
    ∀ offenders : List Req,
      (Except.error LoadError.attrError : Except LoadError (List Req))
        ≠ .error (.missingNames offenders) := by
  refine ⟨rfl, ?_⟩
  intro offenders h
  simp at h

/-- C3 (amended): a nameless wanted-file entry is fatal via the batch
missing-name error; a nameless resolved-file entry is also fatal, but with
the attribute error raised while building the canonical-name map, not with
the missing-name class; the explicit null-key check on the built maps never
fires on any input. -/
theorem resolved_nameless_attr_error :
    (∀ (reqs_in reqs_txt : List Req) (r : Req),
        reqs_in.filter (fun q => q.name.isNone) = [] → r ∈ reqs_txt → r.name = none →
        load_requirements reqs_in reqs_txt = .error .attrError) ∧
    (∀ reqs_in reqs_txt : List Req,
        load_requirements reqs_in reqs_txt ≠ .error .noneKeyCheck) := by
  constructor
  · intro reqs_in reqs_txt r hmiss hr hn
    have hnames : ∀ q ∈ reqs_in, q.name ≠ none := by
      intro q hq hqn
      have hmem : q ∈ reqs_in.filter (fun q => q.name.isNone) :=
        List.mem_filter.mpr ⟨hq, by rw [hqn]; rfl⟩
      rw [hmiss] at hmem
      cases hmem
    obtain ⟨m_in, hm_in⟩ := buildReqMapAux_ok_of_named reqs_in hnames []
    have hbm : buildReqMap reqs_in = .ok m_in := hm_in
    have hbt : buildReqMap reqs_txt = .error .attrError :=
      buildReqMapAux_nameless reqs_txt r hr hn []
    rw [load_requirements]
    simp only [hmiss, ne_eq, not_true_eq_false, if_false, hbm, hbt]
  · intro reqs_in reqs_txt h
    by_cases hm : reqs_in.filter (fun r => r.name.isNone) = []
    · cases hin : buildReqMap reqs_in with
      | error e =>
        rw [load_requirements_in_error reqs_in reqs_txt e hm hin] at h
        injection h with h2
        rw [buildReqMapAux_error reqs_in [] _ hin] at h2
        cases h2
      | ok m_in =>
        cases htxt : buildReqMap reqs_txt with
        | error e =>
          rw [load_requirements_txt_error reqs_in reqs_txt m_in e hm hin htxt] at h
          injection h with h2
          rw [buildReqMapAux_error reqs_txt [] _ htxt] at h2
          cases h2
        | ok m_txt =>
          rw [load_requirements_eq reqs_in reqs_txt m_in m_txt hm hin htxt] at h
          obtain ⟨k, hk⟩ := reconcileAux_error m_txt m_in _ h
          cases hk
    · rw [load_requirements_missing_names reqs_in reqs_txt hm] at h
      simp at h

/-- C3 witness: the amended behavior evaluated on concrete lists — a
nameless resolved-file entry gives the attribute error, and that run does
not raise the null-key check error. -/
theorem resolved_nameless_attr_error_witness :
    load_requirements [⟨some "b".toList, false, [], [], []⟩] [⟨none, false, [], [], []⟩]
      = .error .attrError ∧
    load_requirements [⟨some "b".toList, false, [], [], []⟩] [⟨none, false, [], [], []⟩]
      ≠ .error .noneKeyCheck :=
  ⟨resolved_nameless_attr_error.1 [⟨some "b".toList, false, [], [], []⟩]
      [⟨none, false, [], [], []⟩] ⟨none, false, [], [], []⟩ rfl (by decide) rfl,
   resolved_nameless_attr_error.2 [⟨some "b".toList, false, [], [], []⟩]
      [⟨none, false, [], [], []⟩]⟩

/-- C4: when some non-`pip-tools` canonical name of the wanted map has no
counterpart in the resolved map, producing the reconciled sequence fails
with a key error naming such a missing entry; it never yields a list. -/
theorem missing_counterpart_fails (reqs_in reqs_txt : List Req)
    (m_in m_txt : List (Option (List Char) × Req)) (k : Option (List Char))
    (hmiss : reqs_in.filter (fun r => r.name.isNone) = [])
    (hin : buildReqMap reqs_in = .ok m_in)
    (htxt : buildReqMap reqs_txt = .ok m_txt)
    (hk : k ∈ m_in.map Prod.fst) (hne : k ≠ some pipToolsName)
    (habs : dictLookup m_txt k = none) :
    ∃ k2, load_requirements reqs_in reqs_txt = .error (.reconcileKeyError k2) ∧
      k2 ∈ m_in.map Prod.fst ∧ k2 ≠ some pipToolsName ∧ dictLookup m_txt k2 = none := by
  obtain ⟨k2, h2, h3, h4, h5⟩ := reconcileAux_error_of_missing m_txt m_in k hk hne habs
  refine ⟨k2, ?_, h3, h4, h5⟩
  rw [load_requirements_eq reqs_in reqs_txt m_in m_txt hmiss hin htxt]
  exact h2

/-- C4 witness: a wanted `foo_bar` with an empty resolved file fails with
the key error for canonical name `foo-bar`. -/
theorem missing_counterpart_fails_witness :
    ∃ k2, load_requirements [⟨some "foo_bar".toList, false, [], [], [("==".toList, "1".toList)]⟩] []
        = .error (.reconcileKeyError k2) ∧
      k2 ∈ [((some "foo-bar".toList : Option (List Char)),
              (⟨some "foo_bar".toList, false, [], [], [("==".toList, "1".toList)]⟩ : Req))].map Prod.fst ∧
      k2 ≠ some pipToolsName ∧
      dictLookup ([] : List (Option (List Char) × Req)) k2 = none :=
  missing_counterpart_fails
    [⟨some "foo_bar".toList, false, [], [], [("==".toList, "1".toList)]⟩] []
    [((some "foo-bar".toList : Option (List Char)),
      (⟨some "foo_bar".toList, false, [], [], [("==".toList, "1".toList)]⟩ : Req))] []
    (some "foo-bar".toList) rfl rfl rfl (by decide) (by decide) rfl

/-- C5: a non-editable requirement with zero constraints, or with more than
one constraint, makes translation raise the unsupported-spec error, and any
requirement list containing such an entry makes the whole section writer
fail rather than write a defaulted entry. -/
theorem unconstrained_spec_fatal (r : Req) (he : r.editable = false)
    (hs : r.specs = [] ∨ 1 < r.specs.length) :
    (∀ dev, translateRequirement r dev = .error .unsupportedSpec) ∧
    (∀ (deps : List (Option (List Char) × SpecValue)) (reqs : List Req) (dev : Bool),
      r ∈ reqs → add_requirement_section deps reqs dev = .error .unsupportedSpec) := by
  have htrans : ∀ dev, translateRequirement r dev = .error .unsupportedSpec := by
    intro dev
    rcases hs with hs | hs
    · simp [translateRequirement, he, hs]
    · have h1 : ¬ r.specs.length = 1 := by omega
      have h0 : ¬ r.specs.length = 0 := by omega
      simp [translateRequirement, he, h1, h0]
  refine ⟨htrans, ?_⟩
  intro deps reqs dev
  induction reqs generalizing deps with
  | nil => intro hr; cases hr
  | cons a rest ih =>
    intro hr
    rw [add_requirement_section]
    rcases List.mem_cons.mp hr with h1 | h1
    · rw [← h1, htrans dev]
    · cases htr : translateRequirement a dev with
      | error e => cases e; rfl
      | ok specs => exact ih _ h1

/-- C5 witness: a zero-constraint and a two-constraint non-editable entry
both raise, at translation and at the section level. -/
theorem unconstrained_spec_fatal_witness :
    translateRequirement ⟨some "x".toList, false, [], [], []⟩ false
      = .error .unsupportedSpec ∧
    translateRequirement
      ⟨some "y".toList, false, [], [], [(">".toList, "1".toList), ("<".toList, "2".toList)]⟩ true
      = .error .unsupportedSpec ∧
    add_requirement_section [] [⟨some "x".toList, false, [], [], []⟩] false
      = .error .unsupportedSpec :=
  ⟨(unconstrained_spec_fatal ⟨some "x".toList, false, [], [], []⟩ rfl (Or.inl rfl)).1 false,
   (unconstrained_spec_fatal
      ⟨some "y".toList, false, [], [], [(">".toList, "1".toList), ("<".toList, "2".toList)]⟩
      rfl (Or.inr (by decide))).1 true,
   (unconstrained_spec_fatal ⟨some "x".toList, false, [], [], []⟩ rfl (Or.inl rfl)).2
      [] [⟨some "x".toList, false, [], [], []⟩] false (by decide)⟩

/-- C6: one or more nameless wanted-file entries produce a single
missing-name error carrying the full list of offending entries, not a
failure on the first one alone. -/
theorem missing_names_batch (reqs_in reqs_txt : List Req)
    (h : reqs_in.filter (fun r => r.name.isNone) ≠ []) :
    load_requirements reqs_in reqs_txt
      = .error (.missingNames (reqs_in.filter (fun r => r.name.isNone))) :=
  load_requirements_missing_names reqs_in reqs_txt h

/-- C6 witness: two nameless entries among three produce one error listing
exactly the two offenders. -/
theorem missing_names_batch_witness :
    load_requirements
      [⟨none, true, "p1".toList, [], []⟩,
       ⟨some "a".toList, false, [], [], []⟩,
       ⟨none, true, "p2".toList, [], []⟩] []
      = .error (.missingNames [⟨none, true, "p1".toList, [], []⟩, ⟨none, true, "p2".toList, [], []⟩]) :=
  missing_names_batch _ _ (by decide)

/-- C7: the private-registry merge is an update-or-append on the ordered
source list — with a colon-free name, the call parses into the update; the
first entry with the name ends up carrying the given url; an existing name
leaves the name column (length and order) unchanged; an absent name appends
at the end; and two successive calls with the same absent name and two urls
leave exactly one entry for that name, bearing the second url. -/
theorem add_private_repo_update_or_append (sources : List Source) (n u u2 : List Char)
    (hc : ':' ∉ n) :
    add_private_repo sources (n ++ ':' :: u) = .ok (updateSources sources n u) ∧
    sourceLookup (updateSources sources n u) n = some u ∧
    ((∃ s ∈ sources, s.name = n) →
      (updateSources sources n u).map Source.name = sources.map Source.name) ∧
    ((∀ s ∈ sources, s.name ≠ n) → updateSources sources n u = sources ++ [⟨n, u⟩]) ∧
    ((∀ s ∈ sources, s.name ≠ n) →
      (updateSources (updateSources sources n u) n u2).filter
        (fun s => decide (s.name = n)) = [⟨n, u2⟩]) := by
  refine ⟨?_, sourceLookup_updateSources sources n u,
    updateSources_map_name sources n u, updateSources_append sources n u, ?_⟩
  · rw [add_private_repo, pySplitColon1_mk n u hc]
  · intro h
    rw [updateSources_append sources n u h, updateSources_append_update n u u2 sources h,
      List.filter_append, filter_name_eq_nil n sources h]
    simp

/-- C7 witness: starting from a list without the name, two calls with urls
`u1` then `u2` leave one entry named `repo` with url `u2`. -/
theorem add_private_repo_update_or_append_witness :
    add_private_repo [⟨"other".toList, "o".toList⟩] ("repo".toList ++ ':' :: "u1".toList)
      = .ok (updateSources [⟨"other".toList, "o".toList⟩] "repo".toList "u1".toList) ∧
    sourceLookup (updateSources [⟨"other".toList, "o".toList⟩] "repo".toList "u1".toList)
      "repo".toList = some "u1".toList ∧
    updateSources [⟨"other".toList, "o".toList⟩] "repo".toList "u1".toList
      = [⟨"other".toList, "o".toList⟩] ++ [⟨"repo".toList, "u1".toList⟩] ∧
    (updateSources
        (updateSources [⟨"other".toList, "o".toList⟩] "repo".toList "u1".toList)
        "repo".toList "u2".toList).filter
      (fun s => decide (s.name = "repo".toList)) = [⟨"repo".toList, "u2".toList⟩] :=
  have h := add_private_repo_update_or_append [⟨"other".toList, "o".toList⟩]
    "repo".toList "u1".toList "u2".toList (by decide)
  ⟨h.1, h.2.1, h.2.2.2.1 (by decide), h.2.2.2.2 (by decide)⟩

/-- C8: a successful reconciled sequence is exactly the in-order lookup, in
the resolved map, of the wanted map's canonical names with the `pip-tools`
self-listing excluded. -/
theorem load_requirements_order (reqs_in reqs_txt : List Req)
    (m_in m_txt : List (Option (List Char) × Req)) (l : List Req)
    (hin : buildReqMap reqs_in = .ok m_in)
    (htxt : buildReqMap reqs_txt = .ok m_txt)
    (hok : load_requirements reqs_in reqs_txt = .ok l) :
    orderedLookup m_txt
      ((m_in.map Prod.fst).filter (fun k => decide (k ≠ some pipToolsName))) = some l := by
  have hmiss : reqs_in.filter (fun r => r.name.isNone) = [] := by
    by_contra hne
    rw [load_requirements_missing_names reqs_in reqs_txt hne] at hok
    cases hok
  rw [load_requirements_eq reqs_in reqs_txt m_in m_txt hmiss hin htxt] at hok
  exact reconcileAux_ok m_txt m_in l hok

/-- Concrete wanted-file entry `foo_bar>=1` for the C8 witness. -/
def wantedFooBar : Req := ⟨some "foo_bar".toList, false, [], [], [(">=".toList, "1".toList)]⟩

/-- Concrete wanted-file self-entry `pip_tools` for the C8 witness. -/
def wantedPipTools : Req := ⟨some "pip_tools".toList, false, [], [], []⟩

/-- Concrete resolved-file entry `foo-bar==1.2` for the C8 witness. -/
def resolvedFooBar : Req := ⟨some "foo-bar".toList, false, [], [], [("==".toList, "1.2".toList)]⟩

/-- C8 witness: the wanted file lists `foo_bar` and the `pip_tools`
self-entry; the sequence is the single resolved `foo-bar` record. -/
theorem load_requirements_order_witness :
    orderedLookup [(some "foo-bar".toList, resolvedFooBar)]
      (([((some "foo-bar".toList : Option (List Char)), wantedFooBar),
         (some "pip-tools".toList, wantedPipTools)].map Prod.fst).filter
        (fun k => decide (k ≠ some pipToolsName))) = some [resolvedFooBar] :=
  load_requirements_order [wantedFooBar, wantedPipTools] [resolvedFooBar]
    [((some "foo-bar".toList : Option (List Char)), wantedFooBar),
     (some "pip-tools".toList, wantedPipTools)]
    [(some "foo-bar".toList, resolvedFooBar)]
    [resolvedFooBar] rfl rfl rfl

/-- C9: a non-editable requirement with exactly one constraint and no
extras translates to the scalar caret string over the constraint's version
literal. -/
theorem single_constraint_caret (r : Req) (dev : Bool) (op v : List Char)
    (he : r.editable = false) (hs : r.specs = [(op, v)]) (hx : r.extras = []) :
    translateRequirement r dev = .ok (.scalar ('^' :: v)) := by
  simp [translateRequirement, he, hs, hx]

/-- C9 witness: the single constraint `==2.28.0` translates to the scalar
`^2.28.0`. -/
theorem single_constraint_caret_witness :
    translateRequirement ⟨some "requests".toList, false, [], [], [("==".toList, "2.28.0".toList)]⟩ false
      = .ok (.scalar "^2.28.0".toList) :=
  single_constraint_caret
    ⟨some "requests".toList, false, [], [], [("==".toList, "2.28.0".toList)]⟩
    false "==".toList "2.28.0".toList rfl rfl rfl

/-- C10: an editable dev-section requirement that declares its own extras
translates with extras equal to exactly those declared extras — the
`["dev"]` marker is overwritten, not merged. -/
theorem editable_dev_extras_replaced (r : Req) (he : r.editable = true)
    (hx : r.extras ≠ []) :
    translateRequirement r true
      = .ok (.table ⟨some (pyStrip (r.path.drop 5)), some true, none, some r.extras⟩) := by
  have hxe : r.extras.isEmpty = false := by
    cases hE : r.extras with
    | nil => exact absurd hE hx
    | cons a as => rfl
  simp [translateRequirement, he, hxe]

/-- C10 witness: an editable dev entry declaring extras `["postgres"]`
ends up with extras exactly `["postgres"]`, with no `"dev"` marker. -/
theorem editable_dev_extras_replaced_witness :
    translateRequirement
      ⟨some "foo".toList, true, "file:libs/foo".toList, ["postgres".toList], []⟩ true
      = .ok (.table ⟨some "libs/foo".toList, some true, none, some ["postgres".toList]⟩) :=
  editable_dev_extras_replaced
    ⟨some "foo".toList, true, "file:libs/foo".toList, ["postgres".toList], []⟩
    rfl (by decide)

end Migrate
